import Mathlib

/-!
Verification development for the remote deployment / session-orchestration
tooling of the rpi-ds18b20-temperature-logger repository.

The sync engine (`tools/upload_app_to_rpi.py` and its twin method
`SshClient.upload_recursive` in `tools/ssh_client.py`) is embedded as pure
functions over finite file trees.  Remote SFTP state is a tree; every remote
mutation (`sftp.put`, `sftp.mkdir`, `sftp.remove`, `sftp.rmdir`) is recorded
as a `SyncAction`.  An `sftp.put` is modelled as writing a file stamped with
the local file's modification time (afterwards the remote copy is not older
than the local one, which is the sync-relevant content of a successful
transfer).  An uncaught transfer error (a `put` onto a directory, or into a
parent that is a plain file) is modelled as `Except.error`.
-/

namespace RpiLogger

/-- Does `pat` occur as a prefix of some suffix of `s`, i.e. as a contiguous
segment of `s`? -/
def segmentAt (pat : List Char) : List Char → Bool
  | [] => pat.isPrefixOf []
  | c :: rest => pat.isPrefixOf (c :: rest) || segmentAt pat rest

/-- Substring test on strings, mirroring Python's `pattern in str(path)`
(contiguous character segment; the empty pattern matches everything). -/
def strContains (s pat : String) : Bool :=
  segmentAt pat.data s.data

/-- Suffix test on strings, mirroring Python's `str(path).endswith(pattern)`. -/
def strEndsWith (s pat : String) : Bool :=
  pat.data.isSuffixOf s.data

/-- Path extension, mirroring `path / item` on POSIX paths followed by `str`. -/
def childPath (p n : String) : String := p ++ "/" ++ n

mutual
/-- A filesystem node (local or remote): a file with a modification time, or a
directory with a modification time and named children, as observed through
`stat` / `listdir` / `iterdir`. -/
inductive FsTree : Type where
  | file (mtime : Nat)
  | dir (mtime : Nat) (entries : FsEntries)

/-- The named children of a directory, in listing order. -/
inductive FsEntries : Type where
  | nil
  | cons (name : String) (t : FsTree) (rest : FsEntries)
end

/-- Look up a directory entry by name (first match, mirroring a filesystem
lookup such as `local_path / item` followed by `stat`). -/
def FsEntries.lookup : FsEntries → String → Option FsTree
  | .nil, _ => none
  | .cons n t r, m => if n = m then some t else r.lookup m

/-- Python `local_item.is_dir()`: the named child exists and is a directory. -/
def FsEntries.isDirAt (es : FsEntries) (n : String) : Bool :=
  match es.lookup n with
  | some (.dir _ _) => true
  | _ => false

/-- Python `local_item.exists()`: the named child exists (file or directory). -/
def FsEntries.existsAt (es : FsEntries) (n : String) : Bool :=
  (es.lookup n).isSome

/-- Write a node at a name: replace the first entry with that name, or append
a new entry (the effect of a remote `put`/`mkdir` on the parent listing). -/
def FsEntries.setEntry : FsEntries → String → FsTree → FsEntries
  | .nil, n, t => .cons n t .nil
  | .cons m u r, n, t => if m = n then .cons m t r else .cons m u (r.setEntry n t)

/-- Follow a component path down a tree to the subtree it addresses. -/
def FsTree.getPath : FsTree → List String → Option FsTree
  | t, [] => some t
  | .file _, _ :: _ => none
  | .dir _ es, n :: rest =>
    match es.lookup n with
    | some t => t.getPath rest
    | none => none

/-- One effectful remote operation performed by the sync engine. -/
inductive SyncAction : Type where
  | put (path : String)
  | mkdirA (path : String)
  | removeA (path : String)
  | rmdirA (path : String)
deriving DecidableEq, Repr

/-- Names of the entries of a directory, in listing order. -/
def FsEntries.names : FsEntries → List String
  | .nil => []
  | .cons n _ r => n :: r.names

/-- Well-formedness of a real directory listing: names are distinct at every
level (a real filesystem never lists the same name twice). -/
def nodupNames : FsEntries → Bool
  | .nil => true
  | .cons n t r =>
    !(r.names.contains n) &&
    (match t with
     | .file _ => true
     | .dir _ ces => nodupNames ces) &&
    nodupNames r

end RpiLogger

namespace UploadAppToRpi

open RpiLogger

/-- The `_is_excluded` closure of `upload_recursive` in
`tools/upload_app_to_rpi.py`: a path (given by its string form `s` and its
final component `name`) matches when some pattern is a substring of `s`,
equals `name`, or is a suffix of `s`. -/
def is_excluded (exclude : List String) (s name : String) : Bool :=
  exclude.any (fun pattern =>
    strContains s pattern || (name == pattern) || strEndsWith s pattern)

/-- The loop of the `_remove_remote_dir` closure over a directory listing:
`sftp.remove` each file, recurse into each directory and `sftp.rmdir` it.
It never consults the exclusion set. -/
def remove_remote_entries (p : String) : FsEntries → List SyncAction
  | .nil => []
  | .cons n t r =>
    (match t with
     | .file _ => [SyncAction.removeA (childPath p n)]
     | .dir _ ces =>
       remove_remote_entries (childPath p n) ces ++ [SyncAction.rmdirA (childPath p n)]) ++
    remove_remote_entries p r

/-- The `_remove_remote_dir` closure: remove every entry below `p`, then
`sftp.rmdir` `p` itself. -/
def remove_remote_dir (p : String) (es : FsEntries) : List SyncAction :=
  remove_remote_entries p es ++ [SyncAction.rmdirA p]

/-- The `_delete_extra_remote_files` closure, applied to the listing of a
remote directory whose path is `rp` and whose local counterpart has entries
`localEs`.  Excluded remote items (exclusion evaluated on the remote path)
are skipped.  A remote directory whose local counterpart is not a directory
is removed wholesale; a matching directory is pruned recursively.  A remote
file is removed exactly when the local counterpart does not exist.  Returns
the surviving remote entries and the remote operations performed, in
execution order. -/
def delete_extra_remote_files (exclude : List String) (rp : String)
    (localEs : FsEntries) : FsEntries → FsEntries × List SyncAction
  | .nil => (.nil, [])
  | .cons n t rest =>
    let rpath := childPath rp n
    if is_excluded exclude rpath n then
      let (restEs, restActs) := delete_extra_remote_files exclude rp localEs rest
      (.cons n t restEs, restActs)
    else
      match t with
      | .dir dm ces =>
        match localEs.lookup n with
        | some (.dir _ les) =>
          let (ces', subActs) := delete_extra_remote_files exclude rpath les ces
          let (restEs, restActs) := delete_extra_remote_files exclude rp localEs rest
          (.cons n (.dir dm ces') restEs, subActs ++ restActs)
        | _ =>
          let acts := remove_remote_dir rpath ces
          let (restEs, restActs) := delete_extra_remote_files exclude rp localEs rest
          (restEs, acts ++ restActs)
      | .file fm =>
        if localEs.existsAt n then
          let (restEs, restActs) := delete_extra_remote_files exclude rp localEs rest
          (.cons n (.file fm) restEs, restActs)
        else
          let (restEs, restActs) := delete_extra_remote_files exclude rp localEs rest
          (restEs, SyncAction.removeA rpath :: restActs)

/-- Whether the local subtree with entries `es` (local path `lp`) contains a
non-excluded file at any depth.  Inside a remote parent that is a plain file
every `sftp.mkdir` fails silently, so the upload walk crashes exactly when it
reaches such a file and calls `sftp.put`. -/
def hasUploadableFile (exclude : List String) (lp : String) : FsEntries → Bool
  | .nil => false
  | .cons n t rest =>
    (if is_excluded exclude (childPath lp n) n then false
     else
       match t with
       | .file _ => true
       | .dir _ ces => hasUploadableFile exclude (childPath lp n) ces) ||
    hasUploadableFile exclude lp rest

/-- The `_upload_file_if_newer` closure for a local file of modification time
`lm` against the current remote node at `rpath`: upload when the remote stat
fails (no remote node) or the remote modification time is strictly older;
otherwise skip.  A `put` onto an existing remote directory is an uncaught
transfer error. -/
def upload_file_if_newer (rpath : String) (lm : Nat) :
    Option FsTree → Except String (FsTree × List SyncAction)
  | some (.file rm) =>
    if lm > rm then .ok (.file lm, [SyncAction.put rpath])
    else .ok (.file rm, [])
  | some (.dir dm es) =>
    if lm > dm then .error "put onto remote directory failed"
    else .ok (.dir dm es, [])
  | none => .ok (.file lm, [SyncAction.put rpath])

/-- The loop of the `_upload_dir` closure over the local listing, threading
the remote directory's entries through each child operation.  Excluded local
entries (exclusion evaluated on the local path) are skipped.  A local file
child goes through `_upload_file_if_newer`.  A local directory child is the
recursive `_upload_dir` call, inlined over the current remote node at that
name: a remote plain file there makes the child's `sftp.mkdir` fail silently
and any upload below it an uncaught transfer error; an existing remote
directory is entered without an action; a missing one is created
(`sftp.mkdir` recorded) before recursing. -/
def upload_entries (exclude : List String) (lp rp : String) :
    FsEntries → FsEntries → Except String (FsEntries × List SyncAction)
  | .nil, res => .ok (res, [])
  | .cons n t rest, res =>
    if is_excluded exclude (childPath lp n) n then
      upload_entries exclude lp rp rest res
    else
      match t with
      | .file lm => do
        let (node, acts) ← upload_file_if_newer (childPath rp n) lm (res.lookup n)
        let (resEs, restActs) ← upload_entries exclude lp rp rest (res.setEntry n node)
        return (resEs, acts ++ restActs)
      | .dir _ les =>
        match res.lookup n with
        | some (.file fm) =>
          if hasUploadableFile exclude (childPath lp n) les then
            .error "put below remote file failed"
          else do
            let (resEs, restActs) ←
              upload_entries exclude lp rp rest (res.setEntry n (.file fm))
            return (resEs, [] ++ restActs)
        | some (.dir dm es) => do
          let (es', acts) ←
            upload_entries exclude (childPath lp n) (childPath rp n) les es
          let (resEs, restActs) ←
            upload_entries exclude lp rp rest (res.setEntry n (.dir dm es'))
          return (resEs, acts ++ restActs)
        | none => do
          let (es', acts) ←
            upload_entries exclude (childPath lp n) (childPath rp n) les .nil
          let (resEs, restActs) ←
            upload_entries exclude lp rp rest (res.setEntry n (.dir 0 es'))
          return (resEs, (SyncAction.mkdirA (childPath rp n) :: acts) ++ restActs)

/-- The `_upload_dir` closure for a local directory (path `lp`, entries
`localEs`) against the current remote node at `rp`: `sftp.mkdir` first (an
"already exists" failure is swallowed; when the existing node is a plain
file the directory is never created and any attempted upload below it is an
uncaught transfer error), then the walk of the local entries. -/
def upload_dir (exclude : List String) (lp rp : String) (localEs : FsEntries) :
    Option FsTree → Except String (FsTree × List SyncAction)
  | some (.file fm) =>
    if hasUploadableFile exclude lp localEs then
      .error "put below remote file failed"
    else .ok (.file fm, [])
  | some (.dir dm es) => do
    let (es', acts) ← upload_entries exclude lp rp localEs es
    return (.dir dm es', acts)
  | none => do
    let (es', acts) ← upload_entries exclude lp rp localEs .nil
    return (.dir 0 es', SyncAction.mkdirA rp :: acts)

/-- The action of the upload walk on one non-excluded local child `(n, t)`
against the current remote node at that name: a file child goes through
`_upload_file_if_newer`, a directory child through the recursive
`_upload_dir` (this is the child step of `upload_entries`, factored out for
reasoning). -/
def uploadChild (exclude : List String) (lp rp n : String) (t : FsTree)
    (r : Option FsTree) : Except String (FsTree × List SyncAction) :=
  match t with
  | .file lm => upload_file_if_newer (childPath rp n) lm r
  | .dir _ les => upload_dir exclude (childPath lp n) (childPath rp n) les r

/-- The free function `upload_recursive` of `tools/upload_app_to_rpi.py`:
remote root is `/home/<username>/<project_directory>`; first the deletion
pass from the remote root (a failing `listdir`, because the remote root is
missing or a plain file, is swallowed), then the upload pass from the local
root.  Returns the final remote root node and the remote operations in
execution order. -/
def upload_recursive (username project_directory : String)
    (exclude : List String) (lp : String) (localEs : FsEntries)
    (remoteRoot : Option FsTree) : Except String (FsTree × List SyncAction) :=
  let rp := childPath ("/home/" ++ username) project_directory
  let (remoteAfterDel, delActs) :=
    match remoteRoot with
    | some (.dir dm es) =>
      let (es', a) := delete_extra_remote_files exclude rp localEs es
      (some (FsTree.dir dm es'), a)
    | other => (other, [])
  match upload_dir exclude lp rp localEs remoteAfterDel with
  | .ok (t, upActs) => .ok (t, delActs ++ upActs)
  | .error e => .error e

end UploadAppToRpi

namespace SshClient

open RpiLogger

/-- The `_is_excluded` closure of the method `SshClient.upload_recursive` in
`tools/ssh_client.py`. -/
def is_excluded (exclude : List String) (s name : String) : Bool :=
  exclude.any (fun pattern =>
    strContains s pattern || (name == pattern) || strEndsWith s pattern)

/-- The loop of the method's `_remove_remote_dir` over a listing. -/
def remove_remote_entries (p : String) : FsEntries → List SyncAction
  | .nil => []
  | .cons n t r =>
    (match t with
     | .file _ => [SyncAction.removeA (childPath p n)]
     | .dir _ ces =>
       remove_remote_entries (childPath p n) ces ++ [SyncAction.rmdirA (childPath p n)]) ++
    remove_remote_entries p r

/-- The `_remove_remote_dir` closure of the method. -/
def remove_remote_dir (p : String) (es : FsEntries) : List SyncAction :=
  remove_remote_entries p es ++ [SyncAction.rmdirA p]

/-- The `_delete_extra_remote_files` closure of the method. -/
def delete_extra_remote_files (exclude : List String) (rp : String)
    (localEs : FsEntries) : FsEntries → FsEntries × List SyncAction
  | .nil => (.nil, [])
  | .cons n t rest =>
    let rpath := childPath rp n
    if is_excluded exclude rpath n then
      let (restEs, restActs) := delete_extra_remote_files exclude rp localEs rest
      (.cons n t restEs, restActs)
    else
      match t with
      | .dir dm ces =>
        match localEs.lookup n with
        | some (.dir _ les) =>
          let (ces', subActs) := delete_extra_remote_files exclude rpath les ces
          let (restEs, restActs) := delete_extra_remote_files exclude rp localEs rest
          (.cons n (.dir dm ces') restEs, subActs ++ restActs)
        | _ =>
          let acts := remove_remote_dir rpath ces
          let (restEs, restActs) := delete_extra_remote_files exclude rp localEs rest
          (restEs, acts ++ restActs)
      | .file fm =>
        if localEs.existsAt n then
          let (restEs, restActs) := delete_extra_remote_files exclude rp localEs rest
          (.cons n (.file fm) restEs, restActs)
        else
          let (restEs, restActs) := delete_extra_remote_files exclude rp localEs rest
          (restEs, SyncAction.removeA rpath :: restActs)

/-- Uploadable-file check below a remote parent that is a plain file, for the
method's upload walk (same crash condition as the free function's). -/
def hasUploadableFile (exclude : List String) (lp : String) : FsEntries → Bool
  | .nil => false
  | .cons n t rest =>
    (if is_excluded exclude (childPath lp n) n then false
     else
       match t with
       | .file _ => true
       | .dir _ ces => hasUploadableFile exclude (childPath lp n) ces) ||
    hasUploadableFile exclude lp rest

/-- The `_upload_file_if_newer` closure of the method. -/
def upload_file_if_newer (rpath : String) (lm : Nat) :
    Option FsTree → Except String (FsTree × List SyncAction)
  | some (.file rm) =>
    if lm > rm then .ok (.file lm, [SyncAction.put rpath])
    else .ok (.file rm, [])
  | some (.dir dm es) =>
    if lm > dm then .error "put onto remote directory failed"
    else .ok (.dir dm es, [])
  | none => .ok (.file lm, [SyncAction.put rpath])

/-- The loop of the method's `_upload_dir` over the local listing, with the
recursive `_upload_dir` call for a directory child inlined over the current
remote node at that name, exactly as in the free function's model. -/
def upload_entries (exclude : List String) (lp rp : String) :
    FsEntries → FsEntries → Except String (FsEntries × List SyncAction)
  | .nil, res => .ok (res, [])
  | .cons n t rest, res =>
    if is_excluded exclude (childPath lp n) n then
      upload_entries exclude lp rp rest res
    else
      match t with
      | .file lm => do
        let (node, acts) ← upload_file_if_newer (childPath rp n) lm (res.lookup n)
        let (resEs, restActs) ← upload_entries exclude lp rp rest (res.setEntry n node)
        return (resEs, acts ++ restActs)
      | .dir _ les =>
        match res.lookup n with
        | some (.file fm) =>
          if hasUploadableFile exclude (childPath lp n) les then
            .error "put below remote file failed"
          else do
            let (resEs, restActs) ←
              upload_entries exclude lp rp rest (res.setEntry n (.file fm))
            return (resEs, [] ++ restActs)
        | some (.dir dm es) => do
          let (es', acts) ←
            upload_entries exclude (childPath lp n) (childPath rp n) les es
          let (resEs, restActs) ←
            upload_entries exclude lp rp rest (res.setEntry n (.dir dm es'))
          return (resEs, acts ++ restActs)
        | none => do
          let (es', acts) ←
            upload_entries exclude (childPath lp n) (childPath rp n) les .nil
          let (resEs, restActs) ←
            upload_entries exclude lp rp rest (res.setEntry n (.dir 0 es'))
          return (resEs, (SyncAction.mkdirA (childPath rp n) :: acts) ++ restActs)

/-- The `_upload_dir` closure of the method. -/
def upload_dir (exclude : List String) (lp rp : String) (localEs : FsEntries) :
    Option FsTree → Except String (FsTree × List SyncAction)
  | some (.file fm) =>
    if hasUploadableFile exclude lp localEs then
      .error "put below remote file failed"
    else .ok (.file fm, [])
  | some (.dir dm es) => do
    let (es', acts) ← upload_entries exclude lp rp localEs es
    return (.dir dm es', acts)
  | none => do
    let (es', acts) ← upload_entries exclude lp rp localEs .nil
    return (.dir 0 es', SyncAction.mkdirA rp :: acts)

/-- The method `SshClient.upload_recursive` of `tools/ssh_client.py`: remote
root is `/home/<username>/<root_directory>`; deletion pass first, then the
upload pass, exactly like the free function. -/
def upload_recursive (username root_directory : String)
    (exclude : List String) (lp : String) (localEs : FsEntries)
    (remoteRoot : Option FsTree) : Except String (FsTree × List SyncAction) :=
  let rp := childPath ("/home/" ++ username) root_directory
  let (remoteAfterDel, delActs) :=
    match remoteRoot with
    | some (.dir dm es) =>
      let (es', a) := delete_extra_remote_files exclude rp localEs es
      (some (FsTree.dir dm es'), a)
    | other => (other, [])
  match upload_dir exclude lp rp localEs remoteAfterDel with
  | .ok (t, upActs) => .ok (t, delActs ++ upActs)
  | .error e => .error e

end SshClient

namespace ToolsMain

open RpiLogger

/-- Errors raised by `tools/main.py`: its own exception classes
(`FailedToRunRpiTmux`, `FailedToKillRpiProcessError`, `FailedToInstallRpiTmux`),
the `FileNotFoundError` it raises when the capture file never appears, and
the Python builtin `IndexError` (not part of the module's own taxonomy)
raised by an out-of-bounds string index. -/
inductive RpiToolError : Type where
  | failedToRunRpiTmux (msg : String)
  | failedToKillRpiProcess (msg : String)
  | failedToInstallRpiTmux (msg : String)
  | fileNotFound (msg : String)
  | indexError (msg : String)
deriving DecidableEq, Repr

/-- Module constant `TMUX_SESSION_NAME` of `tools/main.py`. -/
def TMUX_SESSION_NAME : String := "tlog"

/-- Module constant `TMUX_LOG_PATH` of `tools/main.py`. -/
def TMUX_LOG_PATH : String := "/tmp/rpi_ds18b20_temperature_logger.tmux-log"

/-- The outcome of the kill loop of `rpi_kill_logger`: which process ids were
sent a `kill` command (in order), and whether the loop completed or raised. -/
structure KillOutcome : Type where
  attempted : List String
  result : Except RpiToolError Unit
deriving Repr

/-- The loop of `rpi_kill_logger` in `tools/main.py`: for each process id in
order, run `kill <pid>` remotely (modelled by `runKill`, which returns the
exit status and the stderr text); on the first non-zero exit status raise
`FailedToKillRpiProcessError` naming that id and the stderr text, without
attempting the remaining ids. -/
def rpi_kill_logger (runKill : String → Nat × String) :
    List String → KillOutcome
  | [] => ⟨[], .ok ()⟩
  | pid :: rest =>
    if (runKill pid).1 ≠ 0 then
      ⟨[pid], .error (.failedToKillRpiProcess
        ("Failed to kill PID " ++ pid ++ ": " ++ (runKill pid).2))⟩
    else
      let r := rpi_kill_logger runKill rest
      ⟨pid :: r.attempted, r.result⟩

/-- The capture-file poll of `rpi_tmux` (lines 143-157 of `tools/main.py`):
up to `max_retries = 10` probes of `sftp.stat(TMUX_LOG_PATH)`; a failed probe
(file not found, errno 2) sleeps 0.5 seconds and retries; exhausting the
budget raises `FileNotFoundError` naming the path.  `probe k` tells whether
the k-th stat (0-based) finds the file.  On success the result is the number
of probes issued and the number of 0.5-second sleeps taken.  Probe failures
with an errno other than 2 re-raise immediately and are not modelled. -/
def poll_capture_file (probe : Nat → Bool) : Nat → Nat → Except RpiToolError (Nat × Nat)
  | 0, _ => .error (.fileNotFound ("Failed to find log file on rpi: " ++ TMUX_LOG_PATH))
  | fuel + 1, k =>
    if probe k then .ok (k + 1, k)
    else poll_capture_file probe fuel (k + 1)

/-- The capture-file poll started with the full budget `max_retries = 10`. -/
def find_capture_file (probe : Nat → Bool) : Except RpiToolError (Nat × Nat) :=
  poll_capture_file probe 10 0

/-- The combined restart command of `rpi_tmux` (lines 116-121): kill the
session, remove the capture file, create a new detached session, and attach
the output pipe, all in one remote command string. -/
def tmux_restart_command : String :=
  "tmux kill-session -t " ++ TMUX_SESSION_NAME ++ " 2>/dev/null; " ++
  "rm " ++ TMUX_LOG_PATH ++ " 2>/dev/null; " ++
  "tmux new-session -d -s " ++ TMUX_SESSION_NAME ++ " \\; " ++
  "pipe-pane -t " ++ TMUX_SESSION_NAME ++ ":0.0 -o \"cat >> " ++ TMUX_LOG_PATH ++ "\""

/-- The `tmux has-session` query command of `rpi_tmux` (line 124). -/
def tmux_has_session_command : String :=
  "tmux has-session -t " ++ TMUX_SESSION_NAME

/-- The pane-pipe query command of `rpi_tmux` (line 131). -/
def tmux_check_pipe_command : String :=
  "tmux display-message -p -t " ++ TMUX_SESSION_NAME ++ ":0.0 \"#\x7bpane_pipe\x7d\""

/-- The reattach command of `rpi_tmux` (lines 134-137): clear the capture
file and attach the output pipe to the existing session. -/
def tmux_reattach_command : String :=
  "rm " ++ TMUX_LOG_PATH ++ " 2>/dev/null; " ++
  "tmux pipe-pane -t " ++ TMUX_SESSION_NAME ++ ":0.0 -o \"cat >> " ++ TMUX_LOG_PATH ++ "\""

/-- The session-ensuring phase of `rpi_tmux` (lines 114-140 of
`tools/main.py`), as the sequence of remote commands it sends.  With
`restart_application=True` the combined restart command is sent at line 122,
`tmux_command` stays set, so the trailing `if tmux_command:` block (lines
138-140) sends the very same string a second time before sleeping.  Without
restart, a failing `tmux has-session` raises `FailedToRunRpiTmux` carrying
the remote stderr; otherwise the pane-pipe query's stdout is inspected at
index 0 — on empty stdout this is a Python `IndexError` — and when the first
character is not `'1'` the reattach command is set and then sent by the
trailing block. -/
def rpi_tmux_session_phase (restart : Bool) (hasSessionExit : Nat)
    (hasSessionStderr : String) (pipeStdout : String) :
    Except RpiToolError (List String) :=
  if restart then
    .ok [tmux_restart_command, tmux_restart_command]
  else
    if hasSessionExit ≠ 0 then
      .error (.failedToRunRpiTmux
        ("Could not open tmux session \"" ++ TMUX_SESSION_NAME ++ "\":\n" ++ hasSessionStderr))
    else
      match pipeStdout.data with
      | [] => .error (.indexError "string index out of range")
      | c :: _ =>
        if c ≠ '1' then
          .ok [tmux_has_session_command, tmux_check_pipe_command, tmux_reattach_command]
        else
          .ok [tmux_has_session_command, tmux_check_pipe_command]

end ToolsMain

namespace RpiLogger

/-- Nested induction principle for directory listings: to prove a property of
every listing it suffices to treat the empty listing, a file entry, and a
directory entry whose own listing already satisfies the property. -/
def FsEntries.recNested (Q : FsEntries → Prop)
    (hnil : Q .nil)
    (hfile : ∀ n m r, Q r → Q (.cons n (.file m) r))
    (hdir : ∀ n m ces r, Q ces → Q r → Q (.cons n (.dir m ces) r)) :
    ∀ es : FsEntries, Q es
  | .nil => hnil
  | .cons n t r =>
    match t with
    | .file m => hfile n m r (FsEntries.recNested Q hnil hfile hdir r)
    | .dir m ces =>
      hdir n m ces r (FsEntries.recNested Q hnil hfile hdir ces)
        (FsEntries.recNested Q hnil hfile hdir r)

/-- A remote listing on which the deletion pass is a no-op: every entry is
skipped because its remote path is excluded, or its kind matches the local
counterpart in `L` (with a matching directory recursively stable). -/
def entriesClean (exclude : List String) (rp : String) (L : FsEntries) :
    FsEntries → Bool
  | .nil => true
  | .cons n t r =>
    (UploadAppToRpi.is_excluded exclude (childPath rp n) n ||
      (match t, L.lookup n with
       | .file _, some _ => true
       | .dir _ ces, some (.dir _ les) => entriesClean exclude (childPath rp n) les ces
       | _, _ => false)) &&
    entriesClean exclude rp L r

/-- Stability of a single remote entry `(n, t)` below `rp` for the deletion
pass against the local listing `L`: the per-entry conjunct of `entriesClean`. -/
def entryClean (exclude : List String) (rp : String) (L : FsEntries)
    (n : String) (t : FsTree) : Bool :=
  UploadAppToRpi.is_excluded exclude (childPath rp n) n ||
    (match t, L.lookup n with
     | .file _, some _ => true
     | .dir _ ces, some (.dir _ les) => entriesClean exclude (childPath rp n) les ces
     | _, _ => false)

/-- Every entry of the iterated listing is found unchanged by a lookup in `L`
(true of `L` iterated against itself when its names are distinct). -/
def entriesAgree (L : FsEntries) : FsEntries → Prop
  | .nil => True
  | .cons n t r => L.lookup n = some t ∧ entriesAgree L r

end RpiLogger

/-! ## Supporting lemmas -/

namespace RpiLogger

theorem segmentAt_iff (pat : List Char) :
    ∀ l : List Char, segmentAt pat l = true ↔ List.IsInfix pat l
  | [] => by
    simp [segmentAt, List.isPrefixOf_iff_prefix, List.infix_nil, List.prefix_nil]
  | c :: rest => by
    simp [segmentAt, Bool.or_eq_true, List.isPrefixOf_iff_prefix,
      List.infix_cons_iff, segmentAt_iff pat rest]

theorem strContains_iff (s p : String) :
    strContains s p = true ↔ List.IsInfix p.data s.data :=
  segmentAt_iff p.data s.data

theorem strEndsWith_iff (s p : String) :
    strEndsWith s p = true ↔ List.IsSuffix p.data s.data :=
  List.isSuffixOf_iff_suffix

theorem lookup_setEntry_ne (m n : String) (t : FsTree) (h : m ≠ n) :
    ∀ es : FsEntries, (es.setEntry m t).lookup n = es.lookup n
  | .nil => by simp [FsEntries.setEntry, FsEntries.lookup, h]
  | .cons q u r => by
    by_cases hq : q = m
    · subst hq
      simp [FsEntries.setEntry, FsEntries.lookup, h]
    · simp [FsEntries.setEntry, FsEntries.lookup, hq, lookup_setEntry_ne m n t h r]

theorem lookup_setEntry_self (n : String) (t : FsTree) :
    ∀ es : FsEntries, (es.setEntry n t).lookup n = some t
  | .nil => by simp [FsEntries.setEntry, FsEntries.lookup]
  | .cons q u r => by
    by_cases hq : q = n
    · subst hq
      simp [FsEntries.setEntry, FsEntries.lookup]
    · simp [FsEntries.setEntry, FsEntries.lookup, hq, lookup_setEntry_self n t r]

theorem setEntry_of_lookup (n : String) (t : FsTree) :
    ∀ es : FsEntries, es.lookup n = some t → es.setEntry n t = es
  | .nil => by simp [FsEntries.lookup]
  | .cons q u r => by
    by_cases hq : q = n
    · subst hq
      simp [FsEntries.lookup, FsEntries.setEntry]
      intro h
      exact h.symm
    · simp [FsEntries.lookup, FsEntries.setEntry, hq]
      exact setEntry_of_lookup n t r

end RpiLogger

/-! ## Claim theorems: exclusion matching, upload predicate, process kill,
capture-file polling, pane-pipe query, restart double-send -/

open RpiLogger

/-- C5: a path is classified as excluded by `_is_excluded` iff some pattern of
the exclusion set is a substring of the path's string form, equals the final
path component, or is a suffix of the string form; and the classification is
invariant under permuting the pattern list. -/
theorem is_excluded_spec (exclude exclude' : List String) (s name : String)
    (hperm : List.Perm exclude exclude') :
    (UploadAppToRpi.is_excluded exclude s name = true ↔
      ∃ p ∈ exclude,
        List.IsInfix p.data s.data ∨ name = p ∨ List.IsSuffix p.data s.data) ∧
    UploadAppToRpi.is_excluded exclude s name =
      UploadAppToRpi.is_excluded exclude' s name := by
  constructor
  · simp only [UploadAppToRpi.is_excluded, List.any_eq_true, Bool.or_eq_true,
      strContains_iff, strEndsWith_iff, beq_iff_eq, or_assoc]
  · have key : ∀ (l l' : List String), List.Perm l l' →
        UploadAppToRpi.is_excluded l s name = true →
        UploadAppToRpi.is_excluded l' s name = true := by
      intro l l' hp h
      simp only [UploadAppToRpi.is_excluded, List.any_eq_true] at h ⊢
      obtain ⟨p, hm, hx⟩ := h
      exact ⟨p, hp.mem_iff.mp hm, hx⟩
    have h1 := key exclude exclude' hperm
    have h2 := key exclude' exclude hperm.symm
    cases hA : UploadAppToRpi.is_excluded exclude s name <;>
      cases hB : UploadAppToRpi.is_excluded exclude' s name <;> simp_all

/-- Witness for C5 at the repository's real exclusion patterns. -/
theorem is_excluded_spec_witness :
    UploadAppToRpi.is_excluded [".venv", ".git", "__pycache__"]
        "/home/pi/rpi_ds18b20_temperature_logger/.git" ".git" =
      UploadAppToRpi.is_excluded ["__pycache__", ".git", ".venv"]
        "/home/pi/rpi_ds18b20_temperature_logger/.git" ".git" :=
  (is_excluded_spec [".venv", ".git", "__pycache__"] ["__pycache__", ".git", ".venv"]
    "/home/pi/rpi_ds18b20_temperature_logger/.git" ".git" (by decide)).2

/-- C3: `_upload_file_if_newer` uploads exactly when the remote counterpart is
missing or strictly older than the local file; a remote file whose
modification time is at least the local one is left untouched. -/
theorem upload_file_if_newer_spec (rpath : String) (lm rm : Nat) :
    UploadAppToRpi.upload_file_if_newer rpath lm none =
      .ok (.file lm, [SyncAction.put rpath]) ∧
    (rm < lm →
      UploadAppToRpi.upload_file_if_newer rpath lm (some (.file rm)) =
        .ok (.file lm, [SyncAction.put rpath])) ∧
    (lm ≤ rm →
      UploadAppToRpi.upload_file_if_newer rpath lm (some (.file rm)) =
        .ok (.file rm, [])) := by
  refine ⟨rfl, ?_, ?_⟩
  · intro h
    simp [UploadAppToRpi.upload_file_if_newer, h]
  · intro h
    simp [UploadAppToRpi.upload_file_if_newer, Nat.not_lt.mpr h]

/-- Witness for C3: a remote file as new as the local one is not re-uploaded,
a strictly older one is overwritten. -/
theorem upload_file_if_newer_spec_witness :
    UploadAppToRpi.upload_file_if_newer "/home/pi/p/f" 200 (some (.file 200)) =
      .ok (.file 200, []) ∧
    UploadAppToRpi.upload_file_if_newer "/home/pi/p/f" 200 (some (.file 100)) =
      .ok (.file 200, [SyncAction.put "/home/pi/p/f"]) :=
  ⟨(upload_file_if_newer_spec "/home/pi/p/f" 200 200).2.2 (by decide),
   (upload_file_if_newer_spec "/home/pi/p/f" 200 100).2.1 (by decide)⟩

/-- C6: the kill loop of `rpi_kill_logger` sends one `kill` per process id in
list order; if every command exits 0 all ids are attempted and the loop
completes, and the first id whose command exits non-zero raises
`FailedToKillRpiProcessError` naming that id and carrying the remote stderr,
with exactly the ids up to and including it attempted. -/
theorem rpi_kill_logger_spec (runKill : String → Nat × String)
    (ids pre post : List String) (p : String) :
    ((∀ q ∈ ids, (runKill q).1 = 0) →
      ToolsMain.rpi_kill_logger runKill ids = ⟨ids, .ok ()⟩) ∧
    ((∀ q ∈ pre, (runKill q).1 = 0) → (runKill p).1 ≠ 0 →
      ToolsMain.rpi_kill_logger runKill (pre ++ p :: post) =
        ⟨pre ++ [p], .error (.failedToKillRpiProcess
          ("Failed to kill PID " ++ p ++ ": " ++ (runKill p).2))⟩) := by
  constructor
  · intro hall
    induction ids with
    | nil => rfl
    | cons q rest ih =>
      have h0 : (runKill q).1 = 0 := hall q (by simp)
      have hrest := ih (fun r hr => hall r (by simp [hr]))
      simp [ToolsMain.rpi_kill_logger, h0, hrest]
  · intro hpre hp
    induction pre with
    | nil =>
      simp [ToolsMain.rpi_kill_logger, hp]
    | cons q rest ih =>
      have h0 : (runKill q).1 = 0 := hpre q (by simp)
      have hrest := ih (fun r hr => hpre r (by simp [hr]))
      simp [ToolsMain.rpi_kill_logger, h0, hrest]

/-- Witness for C6: with ids `[111, 222]` and only the kill of `222` failing,
`111` is attempted (and terminated) first and the raised error names `222`
with the remote stderr text. -/
theorem rpi_kill_logger_spec_witness :
    ToolsMain.rpi_kill_logger
        (fun pid => if pid == "222" then (1, "kill: no such process") else (0, ""))
        ["111", "222"] =
      ⟨["111", "222"], .error (.failedToKillRpiProcess
        "Failed to kill PID 222: kill: no such process")⟩ :=
  (rpi_kill_logger_spec
      (fun pid => if pid == "222" then (1, "kill: no such process") else (0, ""))
      [] ["111"] [] "222").2 (by decide) (by decide)

theorem poll_capture_file_error (probe : Nat → Bool) :
    ∀ (fuel k : Nat), (∀ i, k ≤ i → i < k + fuel → probe i = false) →
      ToolsMain.poll_capture_file probe fuel k =
        .error (.fileNotFound
          ("Failed to find log file on rpi: " ++ ToolsMain.TMUX_LOG_PATH))
  | 0, _, _ => rfl
  | fuel + 1, k, h => by
    have hk : probe k = false := h k le_rfl (by omega)
    simp only [ToolsMain.poll_capture_file, hk, Bool.false_eq_true, if_false]
    exact poll_capture_file_error probe fuel (k + 1)
      (fun i h1 h2 => h i (by omega) (by omega))

theorem poll_capture_file_success (probe : Nat → Bool) :
    ∀ (fuel k j : Nat), k ≤ j → j < k + fuel → probe j = true →
      (∀ i, k ≤ i → i < j → probe i = false) →
      ToolsMain.poll_capture_file probe fuel k = .ok (j + 1, j)
  | 0, _, _, h1, h2, _, _ => absurd h2 (by omega)
  | fuel + 1, k, j, h1, h2, hj, hlt => by
    by_cases hk : probe k = true
    · have hjk : j = k := by
        by_contra hne
        have hklt : k < j := by omega
        have := hlt k le_rfl hklt
        simp [hk] at this
      subst hjk
      simp [ToolsMain.poll_capture_file, hk]
    · have hkf : probe k = false := by simpa using hk
      have hne : j ≠ k := by
        intro he
        subst he
        simp [hj] at hkf
      simp only [ToolsMain.poll_capture_file, hkf, Bool.false_eq_true, if_false]
      exact poll_capture_file_success probe fuel (k + 1) j (by omega) (by omega) hj
        (fun i hi1 hi2 => hlt i (by omega) hi2)

theorem poll_capture_file_bound (probe : Nat → Bool) :
    ∀ (fuel k : Nat) (r : Nat × Nat),
      ToolsMain.poll_capture_file probe fuel k = .ok r → r.1 ≤ k + fuel
  | 0, k, r, h => by simp [ToolsMain.poll_capture_file] at h
  | fuel + 1, k, r, h => by
    by_cases hk : probe k = true
    · simp [ToolsMain.poll_capture_file, hk] at h
      subst h
      simp

    · have hkf : probe k = false := by simpa using hk
      simp only [ToolsMain.poll_capture_file, hkf, Bool.false_eq_true, if_false] at h
      have := poll_capture_file_bound probe fuel (k + 1) r h
      omega

/-- C7: the capture-file poll makes at most 10 probes; if the file first
appears on probe k (0-based, k < 10) it succeeds after k + 1 probes and k
half-second sleeps, and if the file never appears within the budget it raises
the file-not-found error naming the expected capture-file path after exactly
10 probes. -/
theorem find_capture_file_spec (probe : Nat → Bool) :
    ((∀ i, i < 10 → probe i = false) →
      ToolsMain.find_capture_file probe =
        .error (.fileNotFound
          ("Failed to find log file on rpi: " ++ ToolsMain.TMUX_LOG_PATH))) ∧
    (∀ k, k < 10 → probe k = true → (∀ j, j < k → probe j = false) →
      ToolsMain.find_capture_file probe = .ok (k + 1, k)) ∧
    (∀ r, ToolsMain.find_capture_file probe = .ok r → r.1 ≤ 10) := by
  refine ⟨?_, ?_, ?_⟩
  · intro h
    exact poll_capture_file_error probe 10 0 (fun i _ h2 => h i (by omega))
  · intro k hk hpk hlt
    exact poll_capture_file_success probe 10 0 k (by omega) (by omega) hpk
      (fun i _ h2 => hlt i h2)
  · intro r hr
    simpa using poll_capture_file_bound probe 10 0 r hr

/-- Witness for C7: a file first visible on the 4th probe is found after 4
probes and 3 sleeps; a file that never appears exhausts the budget of 10. -/
theorem find_capture_file_spec_witness :
    ToolsMain.find_capture_file (fun i => i == 3) = .ok (4, 3) ∧
    ToolsMain.find_capture_file (fun _ => false) =
      .error (.fileNotFound
        ("Failed to find log file on rpi: " ++ ToolsMain.TMUX_LOG_PATH)) :=
  ⟨(find_capture_file_spec (fun i => i == 3)).2.1 3 (by decide) (by decide)
      (by decide),
   (find_capture_file_spec (fun _ => false)).1 (fun i _ => rfl)⟩

/-- C9: when the session exists (the `has-session` probe exits 0), the
pane-pipe decision reads character 0 of the query's stdout: empty stdout is a
Python `IndexError` — an error outside the module's own exception taxonomy —
rather than a "pipe absent" result, while a first character other than `'1'`
triggers the reattach command and `'1'` does not. -/
theorem rpi_tmux_pipe_check_spec :
    ToolsMain.rpi_tmux_session_phase false 0 "" "" =
      .error (.indexError "string index out of range") ∧
    ToolsMain.rpi_tmux_session_phase false 0 "" "0" =
      .ok [ToolsMain.tmux_has_session_command, ToolsMain.tmux_check_pipe_command,
        ToolsMain.tmux_reattach_command] ∧
    ToolsMain.rpi_tmux_session_phase false 0 "" "1" =
      .ok [ToolsMain.tmux_has_session_command, ToolsMain.tmux_check_pipe_command] :=
  ⟨rfl, rfl, rfl⟩

/-- C10: on a restart request the session phase sends the combined
kill-session / remove-capture-file / new-session / attach-pipe command string
exactly twice — once immediately and once again from the trailing
`if tmux_command:` block — whatever the session-probe exit code and pipe
query output are. -/
theorem rpi_tmux_restart_double_send (hasSessionExit : Nat)
    (hasSessionStderr pipeStdout : String) :
    ToolsMain.rpi_tmux_session_phase true hasSessionExit hasSessionStderr
        pipeStdout =
      .ok [ToolsMain.tmux_restart_command, ToolsMain.tmux_restart_command] ∧
    (ToolsMain.rpi_tmux_session_phase true hasSessionExit hasSessionStderr
        pipeStdout).map (fun tr => tr.count ToolsMain.tmux_restart_command) =
      .ok 2 := by
  refine ⟨rfl, ?_⟩
  simp [ToolsMain.rpi_tmux_session_phase, Except.map, List.count_cons]

/-! ## Claim theorems: exclusion isolation and kind-mismatch removal -/

theorem delete_preserves_excluded_entry (exclude : List String) (rp : String)
    (localEs : FsEntries) (n : String)
    (hx : UploadAppToRpi.is_excluded exclude (childPath rp n) n = true) :
    ∀ es : FsEntries,
      (UploadAppToRpi.delete_extra_remote_files exclude rp localEs es).1.lookup n =
        es.lookup n
  | .nil => rfl
  | .cons m t rest => by
    have ih := delete_preserves_excluded_entry exclude rp localEs n hx rest
    rcases hrest : UploadAppToRpi.delete_extra_remote_files exclude rp localEs rest
      with ⟨restEs, restActs⟩
    rw [hrest] at ih
    cases t with
    | file fm =>
      by_cases hm : UploadAppToRpi.is_excluded exclude (childPath rp m) m = true
      · simp only [UploadAppToRpi.delete_extra_remote_files, hm, if_true, hrest]
        by_cases hmn : m = n
        · simp [FsEntries.lookup, hmn]
        · simp [FsEntries.lookup, hmn, ih]
      · have hmn : m ≠ n := by
          intro he
          rw [he] at hm
          exact hm hx
        by_cases hex : localEs.existsAt m = true
        · simp only [UploadAppToRpi.delete_extra_remote_files, hm, hrest, hex,
            Bool.false_eq_true, if_false, if_true]
          simp [FsEntries.lookup, hmn, ih]
        · simp only [UploadAppToRpi.delete_extra_remote_files, hm, hrest,
            Bool.false_eq_true, if_false, eq_false_of_ne_true hex]
          simpa [FsEntries.lookup, hmn] using ih
    | dir dm ces =>
      by_cases hm : UploadAppToRpi.is_excluded exclude (childPath rp m) m = true
      · simp only [UploadAppToRpi.delete_extra_remote_files, hm, if_true, hrest]
        by_cases hmn : m = n
        · simp [FsEntries.lookup, hmn]
        · simp [FsEntries.lookup, hmn, ih]
      · have hmn : m ≠ n := by
          intro he
          rw [he] at hm
          exact hm hx
        cases hloc : localEs.lookup m with
        | none =>
          simp only [UploadAppToRpi.delete_extra_remote_files, hm, hrest, hloc,
            Bool.false_eq_true, if_false]
          simpa [FsEntries.lookup, hmn] using ih
        | some u =>
          cases u with
          | file um =>
            simp only [UploadAppToRpi.delete_extra_remote_files, hm, hrest, hloc,
              Bool.false_eq_true, if_false]
            simpa [FsEntries.lookup, hmn] using ih
          | dir um ues =>
            rcases hsub : UploadAppToRpi.delete_extra_remote_files exclude
                (childPath rp m) ues ces with ⟨ces', subActs⟩
            simp only [UploadAppToRpi.delete_extra_remote_files, hm, hrest, hloc,
              hsub, Bool.false_eq_true, if_false]
            simp [FsEntries.lookup, hmn, ih]

theorem upload_preserves_excluded_entry (exclude : List String) (lp rp : String)
    (n : String)
    (hx : UploadAppToRpi.is_excluded exclude (childPath lp n) n = true) :
    ∀ (ll res res' : FsEntries) (acts : List SyncAction),
      UploadAppToRpi.upload_entries exclude lp rp ll res = .ok (res', acts) →
      res'.lookup n = res.lookup n
  | .nil, res, res', acts, h => by
    simp only [UploadAppToRpi.upload_entries, Except.ok.injEq, Prod.mk.injEq] at h
    rw [← h.1]
  | .cons m t rest, res, res', acts, h => by
    cases t with
    | file lm =>
      by_cases hm : UploadAppToRpi.is_excluded exclude (childPath lp m) m = true
      · simp only [UploadAppToRpi.upload_entries, hm, if_true] at h
        exact upload_preserves_excluded_entry exclude lp rp n hx rest res res' acts h
      · have hmn : m ≠ n := by
          intro he
          rw [he] at hm
          exact hm hx
        simp only [UploadAppToRpi.upload_entries, hm, Bool.false_eq_true, if_false] at h
        cases hfn : UploadAppToRpi.upload_file_if_newer (childPath rp m) lm
            (res.lookup m) with
        | error e => rw [hfn] at h; simp [Bind.bind, Except.bind] at h
        | ok v =>
          rcases v with ⟨node, acts1⟩
          rw [hfn] at h
          simp only [Bind.bind, Except.bind] at h
          cases hrec : UploadAppToRpi.upload_entries exclude lp rp rest
              (res.setEntry m node) with
          | error e => rw [hrec] at h; simp at h
          | ok w =>
            rcases w with ⟨resEs, restActs⟩
            rw [hrec] at h
            simp only [Pure.pure, Except.pure, Except.ok.injEq, Prod.mk.injEq] at h
            have := upload_preserves_excluded_entry exclude lp rp n hx rest
              (res.setEntry m node) resEs restActs hrec
            rw [← h.1, this, lookup_setEntry_ne m n node hmn res]
    | dir dmt les =>
      by_cases hm : UploadAppToRpi.is_excluded exclude (childPath lp m) m = true
      · simp only [UploadAppToRpi.upload_entries, hm, if_true] at h
        exact upload_preserves_excluded_entry exclude lp rp n hx rest res res' acts h
      · have hmn : m ≠ n := by
          intro he
          rw [he] at hm
          exact hm hx
        simp only [UploadAppToRpi.upload_entries, hm, Bool.false_eq_true, if_false] at h
        cases hlook : res.lookup m with
        | some u =>
          cases u with
          | file fm =>
            rw [hlook] at h
            by_cases hup : UploadAppToRpi.hasUploadableFile exclude (childPath lp m) les = true
            · simp [hup] at h
            · simp only [hup, Bool.false_eq_true, if_false, Bind.bind, Except.bind] at h
              cases hrec : UploadAppToRpi.upload_entries exclude lp rp rest
                  (res.setEntry m (.file fm)) with
              | error e => rw [hrec] at h; simp at h
              | ok w =>
                rcases w with ⟨resEs, restActs⟩
                rw [hrec] at h
                simp only [Pure.pure, Except.pure, Except.ok.injEq, Prod.mk.injEq] at h
                have := upload_preserves_excluded_entry exclude lp rp n hx rest
                  (res.setEntry m (.file fm)) resEs restActs hrec
                rw [← h.1, this, lookup_setEntry_ne m n _ hmn res]
          | dir dm es =>
            rw [hlook] at h
            simp only [Bind.bind, Except.bind] at h
            cases hsub : UploadAppToRpi.upload_entries exclude (childPath lp m)
                (childPath rp m) les es with
            | error e => rw [hsub] at h; simp at h
            | ok v =>
              rcases v with ⟨es', acts1⟩
              rw [hsub] at h
              dsimp only at h
              cases hrec : UploadAppToRpi.upload_entries exclude lp rp rest
                  (res.setEntry m (.dir dm es')) with
              | error e => rw [hrec] at h; simp at h
              | ok w =>
                rcases w with ⟨resEs, restActs⟩
                rw [hrec] at h
                simp only [Pure.pure, Except.pure, Except.ok.injEq, Prod.mk.injEq] at h
                have := upload_preserves_excluded_entry exclude lp rp n hx rest
                  (res.setEntry m (.dir dm es')) resEs restActs hrec
                rw [← h.1, this, lookup_setEntry_ne m n _ hmn res]
        | none =>
          rw [hlook] at h
          simp only [Bind.bind, Except.bind] at h
          cases hsub : UploadAppToRpi.upload_entries exclude (childPath lp m)
              (childPath rp m) les .nil with
          | error e => rw [hsub] at h; simp at h
          | ok v =>
            rcases v with ⟨es', acts1⟩
            rw [hsub] at h
            dsimp only at h
            cases hrec : UploadAppToRpi.upload_entries exclude lp rp rest
                (res.setEntry m (.dir 0 es')) with
            | error e => rw [hrec] at h; simp at h
            | ok w =>
              rcases w with ⟨resEs, restActs⟩
              rw [hrec] at h
              simp only [Pure.pure, Except.pure, Except.ok.injEq, Prod.mk.injEq] at h
              have := upload_preserves_excluded_entry exclude lp rp n hx rest
                (res.setEntry m (.dir 0 es')) resEs restActs hrec
              rw [← h.1, this, lookup_setEntry_ne m n _ hmn res]

/-- C1 is refuted as literally stated: with exclusion pattern `keep`, the
remote file `d/keep` matches the exclusion set, yet syncing an empty local
tree issues a remove action for it (its non-excluded parent `d` is removed
wholesale by `_remove_remote_dir`, which never consults the exclusions), and
the remote subtree under the excluded path is a file before the sync and
absent after it. -/
theorem excluded_path_removed_counterexample :
    UploadAppToRpi.is_excluded ["keep"] "/home/pi/proj/d/keep" "keep" = true ∧
    FsTree.getPath (.dir 0 (.cons "d" (.dir 0 (.cons "keep" (.file 7) .nil)) .nil))
        ["d", "keep"] = some (.file 7) ∧
    UploadAppToRpi.upload_recursive "pi" "proj" ["keep"] "/l" .nil
        (some (.dir 0 (.cons "d" (.dir 0 (.cons "keep" (.file 7) .nil)) .nil))) =
      .ok (.dir 0 .nil,
        [SyncAction.removeA "/home/pi/proj/d/keep",
          SyncAction.rmdirA "/home/pi/proj/d"]) ∧
    FsTree.getPath (.dir 0 .nil) ["d", "keep"] = none :=
  ⟨rfl, rfl, rfl, rfl⟩

/-- C1 (amended): the deletion pass leaves every remote entry whose own
remote path matches the exclusion set untouched in its directory, and the
upload pass leaves the remote entry at every name whose local path matches
the exclusion set untouched; excluded paths strictly inside a non-excluded
remote directory that is removed wholesale enjoy no such protection. -/
theorem sync_preserves_directly_excluded_entries (exclude : List String)
    (rp lp : String) (localEs : FsEntries) (n : String) :
    (UploadAppToRpi.is_excluded exclude (childPath rp n) n = true →
      ∀ es : FsEntries,
        (UploadAppToRpi.delete_extra_remote_files exclude rp localEs es).1.lookup n =
          es.lookup n) ∧
    (UploadAppToRpi.is_excluded exclude (childPath lp n) n = true →
      ∀ (ll res res' : FsEntries) (acts : List SyncAction),
        UploadAppToRpi.upload_entries exclude lp rp ll res = .ok (res', acts) →
        res'.lookup n = res.lookup n) :=
  ⟨fun hx => delete_preserves_excluded_entry exclude rp localEs n hx,
   fun hx => upload_preserves_excluded_entry exclude lp rp n hx⟩

/-- Witness for the amended C1: a directly-encountered excluded remote file
survives the deletion pass even though its local counterpart is absent, and
an excluded local file is not uploaded over the remote entry of that name. -/
theorem sync_preserves_directly_excluded_entries_witness :
    (UploadAppToRpi.delete_extra_remote_files ["keep"] "/r" .nil
        (.cons "keep" (.file 3) .nil)).1.lookup "keep" =
      (FsEntries.cons "keep" (.file 3) .nil).lookup "keep" ∧
    FsEntries.lookup
        (FsEntries.cons "keep" (.file 9) .nil) "keep" =
      (FsEntries.cons "keep" (.file 9) .nil).lookup "keep" :=
  ⟨(sync_preserves_directly_excluded_entries ["keep"] "/r" "/l" .nil "keep").1
      (by rfl) (.cons "keep" (.file 3) .nil),
   (sync_preserves_directly_excluded_entries ["keep"] "/r" "/l" .nil "keep").2
      (by rfl) (.cons "keep" (.file 5) .nil) (.cons "keep" (.file 9) .nil)
      (.cons "keep" (.file 9) .nil) [] (by rfl)⟩

/-- C2 is contradicted by the code at a concrete input: a remote plain file
`d` whose local counterpart is a directory is not removed by the deletion
pass (`_delete_extra_remote_files` only checks `local_item.exists()` for
remote files), and the subsequent upload pass then fails attempting to
transfer into it; the opposite mismatch (remote directory, local file) is
removed as the claim describes. -/
theorem kind_mismatched_remote_file_not_removed :
    UploadAppToRpi.delete_extra_remote_files [] "/home/pi/p"
        (.cons "d" (.dir 0 (.cons "x" (.file 5) .nil)) .nil)
        (.cons "d" (.file 9) .nil) =
      (.cons "d" (.file 9) .nil, []) ∧
    UploadAppToRpi.upload_recursive "pi" "p" [] "/l"
        (.cons "d" (.dir 0 (.cons "x" (.file 5) .nil)) .nil)
        (some (.dir 0 (.cons "d" (.file 9) .nil))) =
      .error "put below remote file failed" ∧
    UploadAppToRpi.delete_extra_remote_files [] "/home/pi/p"
        (.cons "d" (.file 5) .nil)
        (.cons "d" (.dir 0 (.cons "x" (.file 9) .nil)) .nil) =
      (.nil, [SyncAction.removeA "/home/pi/p/d/x", SyncAction.rmdirA "/home/pi/p/d"]) :=
  ⟨rfl, rfl, rfl⟩

/-! ## Claim theorems: the two sync implementations agree -/

theorem is_excluded_eq : SshClient.is_excluded = UploadAppToRpi.is_excluded := rfl

theorem upload_file_if_newer_eq :
    SshClient.upload_file_if_newer = UploadAppToRpi.upload_file_if_newer := rfl

theorem remove_remote_entries_eq : ∀ (p : String) (es : FsEntries),
    UploadAppToRpi.remove_remote_entries p es = SshClient.remove_remote_entries p es
  | _, .nil => rfl
  | p, .cons n t r => by
    cases t with
    | file m =>
      simp [UploadAppToRpi.remove_remote_entries, SshClient.remove_remote_entries,
        remove_remote_entries_eq p r]
    | dir m ces =>
      simp [UploadAppToRpi.remove_remote_entries, SshClient.remove_remote_entries,
        remove_remote_entries_eq (childPath p n) ces, remove_remote_entries_eq p r]

theorem remove_remote_dir_eq (p : String) (es : FsEntries) :
    UploadAppToRpi.remove_remote_dir p es = SshClient.remove_remote_dir p es := by
  simp [UploadAppToRpi.remove_remote_dir, SshClient.remove_remote_dir,
    remove_remote_entries_eq p es]

theorem delete_extra_remote_files_eq (exclude : List String) :
    ∀ (rp : String) (L es : FsEntries),
      UploadAppToRpi.delete_extra_remote_files exclude rp L es =
        SshClient.delete_extra_remote_files exclude rp L es
  | _, _, .nil => rfl
  | rp, L, .cons n t rest => by
    have ihrest := delete_extra_remote_files_eq exclude rp L rest
    cases t with
    | file fm =>
      by_cases hm : UploadAppToRpi.is_excluded exclude (childPath rp n) n = true
      · simp only [UploadAppToRpi.delete_extra_remote_files,
          SshClient.delete_extra_remote_files, is_excluded_eq, hm, if_true, ihrest]
      · by_cases hex : L.existsAt n = true
        · simp only [UploadAppToRpi.delete_extra_remote_files,
            SshClient.delete_extra_remote_files, is_excluded_eq, hm,
            Bool.false_eq_true, if_false, hex, if_true, ihrest]
        · simp only [UploadAppToRpi.delete_extra_remote_files,
            SshClient.delete_extra_remote_files, is_excluded_eq, hm,
            Bool.false_eq_true, if_false, eq_false_of_ne_true hex, ihrest]
    | dir dm ces =>
      by_cases hm : UploadAppToRpi.is_excluded exclude (childPath rp n) n = true
      · simp only [UploadAppToRpi.delete_extra_remote_files,
          SshClient.delete_extra_remote_files, is_excluded_eq, hm, if_true, ihrest]
      · cases hloc : L.lookup n with
        | none =>
          simp only [UploadAppToRpi.delete_extra_remote_files,
            SshClient.delete_extra_remote_files, is_excluded_eq, hm,
            Bool.false_eq_true, if_false, hloc, remove_remote_dir_eq, ihrest]
        | some u =>
          cases u with
          | file um =>
            simp only [UploadAppToRpi.delete_extra_remote_files,
              SshClient.delete_extra_remote_files, is_excluded_eq, hm,
              Bool.false_eq_true, if_false, hloc, remove_remote_dir_eq, ihrest]
          | dir um ues =>
            simp only [UploadAppToRpi.delete_extra_remote_files,
              SshClient.delete_extra_remote_files, is_excluded_eq, hm,
              Bool.false_eq_true, if_false, hloc,
              delete_extra_remote_files_eq exclude (childPath rp n) ues ces, ihrest]

theorem hasUploadableFile_eq (exclude : List String) : ∀ (lp : String) (es : FsEntries),
    UploadAppToRpi.hasUploadableFile exclude lp es =
      SshClient.hasUploadableFile exclude lp es
  | _, .nil => rfl
  | lp, .cons n t rest => by
    cases t with
    | file m =>
      simp only [UploadAppToRpi.hasUploadableFile, SshClient.hasUploadableFile,
        is_excluded_eq, hasUploadableFile_eq exclude lp rest]
    | dir m ces =>
      simp only [UploadAppToRpi.hasUploadableFile, SshClient.hasUploadableFile,
        is_excluded_eq, hasUploadableFile_eq exclude (childPath lp n) ces,
        hasUploadableFile_eq exclude lp rest]

theorem upload_entries_eq (exclude : List String) :
    ∀ (lp rp : String) (ll res : FsEntries),
      UploadAppToRpi.upload_entries exclude lp rp ll res =
        SshClient.upload_entries exclude lp rp ll res
  | _, _, .nil, _ => rfl
  | lp, rp, .cons n t rest, res => by
    cases t with
    | file lm =>
      by_cases hm : UploadAppToRpi.is_excluded exclude (childPath lp n) n = true
      · simp only [UploadAppToRpi.upload_entries, SshClient.upload_entries,
          is_excluded_eq, hm, if_true]
        exact upload_entries_eq exclude lp rp rest res
      · simp only [UploadAppToRpi.upload_entries, SshClient.upload_entries,
          is_excluded_eq, hm, Bool.false_eq_true, if_false, upload_file_if_newer_eq]
        cases hfn : UploadAppToRpi.upload_file_if_newer (childPath rp n) lm
            (res.lookup n) with
        | error e => simp [Bind.bind, Except.bind, hfn]
        | ok v =>
          rcases v with ⟨node, acts1⟩
          simp only [Bind.bind, Except.bind, hfn,
            upload_entries_eq exclude lp rp rest (res.setEntry n node)]
    | dir dmt les =>
      by_cases hm : UploadAppToRpi.is_excluded exclude (childPath lp n) n = true
      · simp only [UploadAppToRpi.upload_entries, SshClient.upload_entries,
          is_excluded_eq, hm, if_true]
        exact upload_entries_eq exclude lp rp rest res
      · cases hlook : res.lookup n with
        | some u =>
          cases u with
          | file fm =>
            simp only [UploadAppToRpi.upload_entries, SshClient.upload_entries,
              is_excluded_eq, hm, Bool.false_eq_true, if_false, hlook,
              hasUploadableFile_eq exclude (childPath lp n) les]
            by_cases hup : SshClient.hasUploadableFile exclude (childPath lp n) les = true
            · simp [hup]
            · simp only [hup, Bool.false_eq_true, if_false, Bind.bind, Except.bind,
                upload_entries_eq exclude lp rp rest (res.setEntry n (.file fm))]
          | dir dm es =>
            simp only [UploadAppToRpi.upload_entries, SshClient.upload_entries,
              is_excluded_eq, hm, Bool.false_eq_true, if_false, hlook]
            rw [← upload_entries_eq exclude (childPath lp n) (childPath rp n) les es]
            cases hsub : UploadAppToRpi.upload_entries exclude (childPath lp n)
                (childPath rp n) les es with
            | error e => simp [Bind.bind, Except.bind, hsub]
            | ok v =>
              rcases v with ⟨es', acts1⟩
              simp only [Bind.bind, Except.bind, hsub,
                upload_entries_eq exclude lp rp rest (res.setEntry n (.dir dm es'))]
        | none =>
          simp only [UploadAppToRpi.upload_entries, SshClient.upload_entries,
            is_excluded_eq, hm, Bool.false_eq_true, if_false, hlook]
          rw [← upload_entries_eq exclude (childPath lp n) (childPath rp n) les .nil]
          cases hsub : UploadAppToRpi.upload_entries exclude (childPath lp n)
              (childPath rp n) les .nil with
          | error e => simp [Bind.bind, Except.bind, hsub]
          | ok v =>
            rcases v with ⟨es', acts1⟩
            simp only [Bind.bind, Except.bind, hsub,
              upload_entries_eq exclude lp rp rest (res.setEntry n (.dir 0 es'))]

theorem upload_dir_eq (exclude : List String) (lp rp : String) (localEs : FsEntries)
    (r : Option FsTree) :
    UploadAppToRpi.upload_dir exclude lp rp localEs r =
      SshClient.upload_dir exclude lp rp localEs r := by
  cases r with
  | none =>
    simp only [UploadAppToRpi.upload_dir, SshClient.upload_dir,
      upload_entries_eq exclude lp rp localEs .nil]
  | some u =>
    cases u with
    | file fm =>
      simp only [UploadAppToRpi.upload_dir, SshClient.upload_dir,
        hasUploadableFile_eq exclude lp localEs]
    | dir dm es =>
      simp only [UploadAppToRpi.upload_dir, SshClient.upload_dir,
        upload_entries_eq exclude lp rp localEs es]

/-- C8: the free function `upload_recursive` of `tools/upload_app_to_rpi.py`
and the method `SshClient.upload_recursive` of `tools/ssh_client.py` are
extensionally equal: on every local tree, remote tree and exclusion set they
produce the same final remote tree and the same sequence of remote
file-transfer actions (or the same failure). -/
theorem upload_recursive_free_eq_method (username project_directory : String)
    (exclude : List String) (lp : String) (localEs : FsEntries)
    (remoteRoot : Option FsTree) :
    UploadAppToRpi.upload_recursive username project_directory exclude lp localEs
        remoteRoot =
      SshClient.upload_recursive username project_directory exclude lp localEs
        remoteRoot := by
  cases remoteRoot with
  | none =>
    simp only [UploadAppToRpi.upload_recursive, SshClient.upload_recursive,
      upload_dir_eq]
  | some u =>
    cases u with
    | file fm =>
      simp only [UploadAppToRpi.upload_recursive, SshClient.upload_recursive,
        upload_dir_eq]
    | dir dm es =>
      simp only [UploadAppToRpi.upload_recursive, SshClient.upload_recursive,
        delete_extra_remote_files_eq, upload_dir_eq]

/-! ## Supporting lemmas for idempotence of the sync engine -/

theorem upload_entries_cons_excluded (exclude : List String) (lp rp n : String)
    (t : FsTree) (rest res : FsEntries)
    (hm : UploadAppToRpi.is_excluded exclude (childPath lp n) n = true) :
    UploadAppToRpi.upload_entries exclude lp rp (.cons n t rest) res =
      UploadAppToRpi.upload_entries exclude lp rp rest res := by
  cases t <;> simp [UploadAppToRpi.upload_entries, hm]

theorem upload_entries_cons_eq (exclude : List String) (lp rp n : String)
    (t : FsTree) (rest res : FsEntries)
    (hm : UploadAppToRpi.is_excluded exclude (childPath lp n) n = false) :
    UploadAppToRpi.upload_entries exclude lp rp (.cons n t rest) res =
      match UploadAppToRpi.uploadChild exclude lp rp n t (res.lookup n) with
      | .error e => .error e
      | .ok (node, acts1) =>
        match UploadAppToRpi.upload_entries exclude lp rp rest (res.setEntry n node) with
        | .error e => .error e
        | .ok (resEs, restActs) => .ok (resEs, acts1 ++ restActs) := by
  cases t with
  | file lm =>
    simp only [UploadAppToRpi.upload_entries, hm, Bool.false_eq_true, if_false,
      UploadAppToRpi.uploadChild, Bind.bind, Except.bind]
    cases hfn : UploadAppToRpi.upload_file_if_newer (childPath rp n) lm
        (res.lookup n) with
    | error e => rfl
    | ok v =>
      rcases v with ⟨node, acts1⟩
      dsimp only
      cases hrec : UploadAppToRpi.upload_entries exclude lp rp rest
          (res.setEntry n node) with
      | error e => rfl
      | ok w => rfl
  | dir dmt les =>
    cases hlook : res.lookup n with
    | some u =>
      cases u with
      | file fm =>
        simp only [UploadAppToRpi.upload_entries, hm, Bool.false_eq_true, if_false,
          hlook, UploadAppToRpi.uploadChild, UploadAppToRpi.upload_dir,
          Bind.bind, Except.bind]
        by_cases hup : UploadAppToRpi.hasUploadableFile exclude (childPath lp n) les = true
        · simp only [hup, if_true]
        · simp only [hup, Bool.false_eq_true, if_false]
          cases hrec : UploadAppToRpi.upload_entries exclude lp rp rest
              (res.setEntry n (.file fm)) with
          | error e => rfl
          | ok w => rcases w with ⟨resEs, restActs⟩; rfl
      | dir dm es =>
        simp only [UploadAppToRpi.upload_entries, hm, Bool.false_eq_true, if_false,
          hlook, UploadAppToRpi.uploadChild, UploadAppToRpi.upload_dir,
          Bind.bind, Except.bind]
        cases hsub : UploadAppToRpi.upload_entries exclude (childPath lp n)
            (childPath rp n) les es with
        | error e => rfl
        | ok v =>
          rcases v with ⟨es', acts1⟩
          simp only [Pure.pure, Except.pure]
          cases hrec : UploadAppToRpi.upload_entries exclude lp rp rest
              (res.setEntry n (.dir dm es')) with
          | error e => rfl
          | ok w => rcases w with ⟨resEs, restActs⟩; rfl
    | none =>
      simp only [UploadAppToRpi.upload_entries, hm, Bool.false_eq_true, if_false,
        hlook, UploadAppToRpi.uploadChild, UploadAppToRpi.upload_dir,
        Bind.bind, Except.bind]
      cases hsub : UploadAppToRpi.upload_entries exclude (childPath lp n)
          (childPath rp n) les .nil with
      | error e => rfl
      | ok v =>
        rcases v with ⟨es', acts1⟩
        simp only [Pure.pure, Except.pure]
        cases hrec : UploadAppToRpi.upload_entries exclude lp rp rest
            (res.setEntry n (.dir 0 es')) with
        | error e => rfl
        | ok w => rcases w with ⟨resEs, restActs⟩; rfl

theorem upload_file_if_newer_idem (rpath : String) (lm : Nat) (z : Option FsTree)
    (v : FsTree) (a : List SyncAction)
    (h : UploadAppToRpi.upload_file_if_newer rpath lm z = .ok (v, a)) :
    UploadAppToRpi.upload_file_if_newer rpath lm (some v) = .ok (v, []) := by
  cases z with
  | none =>
    simp only [UploadAppToRpi.upload_file_if_newer, Except.ok.injEq,
      Prod.mk.injEq] at h
    rw [← h.1]
    simp [UploadAppToRpi.upload_file_if_newer]
  | some u =>
    cases u with
    | file rm =>
      by_cases hlt : lm > rm
      · simp only [UploadAppToRpi.upload_file_if_newer, hlt, if_true,
          Except.ok.injEq, Prod.mk.injEq] at h
        rw [← h.1]
        simp [UploadAppToRpi.upload_file_if_newer]
      · simp only [UploadAppToRpi.upload_file_if_newer, hlt, if_false,
          Except.ok.injEq, Prod.mk.injEq] at h
        rw [← h.1]
        simp [UploadAppToRpi.upload_file_if_newer, hlt]
    | dir dm es =>
      by_cases hlt : lm > dm
      · simp [UploadAppToRpi.upload_file_if_newer, hlt] at h
      · simp only [UploadAppToRpi.upload_file_if_newer, hlt, if_false,
          Except.ok.injEq, Prod.mk.injEq] at h
        rw [← h.1]
        simp [UploadAppToRpi.upload_file_if_newer, hlt]

theorem nodup_head (n : String) (t : FsTree) (r : FsEntries)
    (h : nodupNames (.cons n t r) = true) : (r.names.contains n) = false := by
  cases t <;> simp only [nodupNames, Bool.and_eq_true, Bool.not_eq_true'] at h <;>
    exact h.1.1

theorem nodup_rest (n : String) (t : FsTree) (r : FsEntries)
    (h : nodupNames (.cons n t r) = true) : nodupNames r = true := by
  cases t <;> simp only [nodupNames, Bool.and_eq_true, Bool.not_eq_true'] at h <;>
    exact h.2

theorem nodup_dir (n : String) (m : Nat) (ces : FsEntries) (r : FsEntries)
    (h : nodupNames (.cons n (.dir m ces) r) = true) : nodupNames ces = true := by
  simp only [nodupNames, Bool.and_eq_true, Bool.not_eq_true'] at h
  exact h.1.2

theorem entriesAgree_cons (n : String) (t : FsTree) (r : FsEntries) :
    ∀ x : FsEntries, entriesAgree r x → (x.names.contains n) = false →
      entriesAgree (.cons n t r) x
  | .nil, _, _ => trivial
  | .cons m u xr, h, hn => by
    obtain ⟨h1, h2⟩ := h
    simp only [FsEntries.names, List.contains_cons, Bool.or_eq_false_iff,
      beq_eq_false_iff_ne] at hn
    refine ⟨?_, entriesAgree_cons n t r xr h2 ?_⟩
    · simp only [FsEntries.lookup, if_neg hn.1, h1]
    · exact hn.2

theorem entriesAgree_of_nodup : ∀ L : FsEntries, nodupNames L = true → entriesAgree L L
  | .nil, _ => trivial
  | .cons n t r, h => by
    refine ⟨?_, entriesAgree_cons n t r r
      (entriesAgree_of_nodup r (nodup_rest n t r h)) (nodup_head n t r h)⟩
    simp [FsEntries.lookup]

theorem entriesClean_cons (exclude : List String) (rp : String) (L : FsEntries)
    (n : String) (t : FsTree) (r : FsEntries) :
    entriesClean exclude rp L (.cons n t r) =
      (entryClean exclude rp L n t && entriesClean exclude rp L r) := by
  rw [entriesClean.eq_def, entryClean.eq_def]

theorem entriesClean_lookup (exclude : List String) (rp : String) (L : FsEntries) :
    ∀ (es : FsEntries) (n : String) (u : FsTree),
      entriesClean exclude rp L es = true → es.lookup n = some u →
      entryClean exclude rp L n u = true
  | .nil, n, u, _, hl => by simp [FsEntries.lookup] at hl
  | .cons m t r, n, u, hc, hl => by
    rw [entriesClean_cons, Bool.and_eq_true] at hc
    by_cases hmn : m = n
    · subst hmn
      have htu : t = u := by simpa [FsEntries.lookup] using hl
      rw [← htu]
      exact hc.1
    · simp only [FsEntries.lookup, if_neg hmn] at hl
      exact entriesClean_lookup exclude rp L r n u hc.2 hl

theorem entriesClean_setEntry (exclude : List String) (rp : String) (L : FsEntries) :
    ∀ (es : FsEntries) (n : String) (t : FsTree),
      entriesClean exclude rp L es = true → entryClean exclude rp L n t = true →
      entriesClean exclude rp L (es.setEntry n t) = true
  | .nil, n, t, _, ht => by
    simp [FsEntries.setEntry, entriesClean_cons, entriesClean, ht]
  | .cons m u r, n, t, hc, ht => by
    rw [entriesClean_cons, Bool.and_eq_true] at hc
    by_cases hmn : m = n
    · subst hmn
      have hset : (FsEntries.cons m u r).setEntry m t = .cons m t r := by
        simp [FsEntries.setEntry]
      rw [hset, entriesClean_cons, Bool.and_eq_true]
      exact ⟨ht, hc.2⟩
    · simp only [FsEntries.setEntry, if_neg hmn, entriesClean_cons, Bool.and_eq_true]
      exact ⟨hc.1, entriesClean_setEntry exclude rp L r n t hc.2 ht⟩

theorem entriesClean_delete (exclude : List String) :
    ∀ (es : FsEntries) (rp : String) (L : FsEntries),
      entriesClean exclude rp L es = true →
      UploadAppToRpi.delete_extra_remote_files exclude rp L es = (es, [])
  | .nil, _, _, _ => rfl
  | .cons n t rest, rp, L, hc => by
    rw [entriesClean_cons, Bool.and_eq_true] at hc
    have ihrest := entriesClean_delete exclude rest rp L hc.2
    have hec := hc.1
    cases t with
    | file fm =>
      by_cases hm : UploadAppToRpi.is_excluded exclude (childPath rp n) n = true
      · simp [UploadAppToRpi.delete_extra_remote_files, hm, ihrest]
      · have hmatch : (FsEntries.lookup L n).isSome = true := by
          simp only [entryClean, hm, Bool.false_or] at hec
          cases hloc : L.lookup n with
          | none => rw [hloc] at hec; simp at hec
          | some u => simp
        simp [UploadAppToRpi.delete_extra_remote_files, hm, FsEntries.existsAt,
          hmatch, ihrest]
    | dir dm ces =>
      by_cases hm : UploadAppToRpi.is_excluded exclude (childPath rp n) n = true
      · simp [UploadAppToRpi.delete_extra_remote_files, hm, ihrest]
      · simp only [entryClean, hm, Bool.false_or] at hec
        cases hloc : L.lookup n with
        | none => rw [hloc] at hec; simp at hec
        | some u =>
          rw [hloc] at hec
          cases u with
          | file um => simp at hec
          | dir um les =>
            have ihsub := entriesClean_delete exclude ces (childPath rp n) les hec
            simp [UploadAppToRpi.delete_extra_remote_files, hm, hloc, ihsub, ihrest]

theorem delete_output_clean (exclude : List String) :
    ∀ (es : FsEntries) (rp : String) (L : FsEntries),
      entriesClean exclude rp L
        (UploadAppToRpi.delete_extra_remote_files exclude rp L es).1 = true
  | .nil, _, _ => rfl
  | .cons n t rest, rp, L => by
    have ihrest := delete_output_clean exclude rest rp L
    rcases hrest : UploadAppToRpi.delete_extra_remote_files exclude rp L rest
      with ⟨restEs, restActs⟩
    rw [hrest] at ihrest
    cases t with
    | file fm =>
      by_cases hm : UploadAppToRpi.is_excluded exclude (childPath rp n) n = true
      · simp only [UploadAppToRpi.delete_extra_remote_files, hm, if_true, hrest,
          entriesClean_cons, Bool.and_eq_true]
        exact ⟨by simp [entryClean, hm], ihrest⟩
      · by_cases hex : L.existsAt n = true
        · simp only [UploadAppToRpi.delete_extra_remote_files, hm,
            Bool.false_eq_true, if_false, hex, if_true, hrest, entriesClean_cons,
            Bool.and_eq_true]
          refine ⟨?_, ihrest⟩
          simp only [FsEntries.existsAt, Option.isSome_iff_exists] at hex
          obtain ⟨u, hu⟩ := hex
          simp [entryClean, hu]
        · simp only [UploadAppToRpi.delete_extra_remote_files, hm,
            Bool.false_eq_true, if_false, eq_false_of_ne_true hex, hrest]
          exact ihrest
    | dir dm ces =>
      by_cases hm : UploadAppToRpi.is_excluded exclude (childPath rp n) n = true
      · simp only [UploadAppToRpi.delete_extra_remote_files, hm, if_true, hrest,
          entriesClean_cons, Bool.and_eq_true]
        exact ⟨by simp [entryClean, hm], ihrest⟩
      · cases hloc : L.lookup n with
        | none =>
          simp only [UploadAppToRpi.delete_extra_remote_files, hm,
            Bool.false_eq_true, if_false, hloc, hrest]
          exact ihrest
        | some u =>
          cases u with
          | file um =>
            simp only [UploadAppToRpi.delete_extra_remote_files, hm,
              Bool.false_eq_true, if_false, hloc, hrest]
            exact ihrest
          | dir um les =>
            have ihsub := delete_output_clean exclude ces (childPath rp n) les
            rcases hsub : UploadAppToRpi.delete_extra_remote_files exclude
                (childPath rp n) les ces with ⟨ces', subActs⟩
            rw [hsub] at ihsub
            simp only [UploadAppToRpi.delete_extra_remote_files, hm,
              Bool.false_eq_true, if_false, hloc, hsub, hrest, entriesClean_cons,
              Bool.and_eq_true]
            refine ⟨?_, ihrest⟩
            simp [entryClean, hloc, ihsub]

theorem upload_entries_preserves_other_names (exclude : List String)
    (lp rp n : String) :
    ∀ (ll res res' : FsEntries) (acts : List SyncAction),
      (ll.names.contains n) = false →
      UploadAppToRpi.upload_entries exclude lp rp ll res = .ok (res', acts) →
      res'.lookup n = res.lookup n
  | .nil, res, res', acts, _, h => by
    simp only [UploadAppToRpi.upload_entries, Except.ok.injEq, Prod.mk.injEq] at h
    rw [← h.1]
  | .cons m t rest, res, res', acts, hn, h => by
    have hn' : m ≠ n ∧ (rest.names.contains n) = false := by
      simp only [FsEntries.names, List.contains_cons, Bool.or_eq_false_iff,
        beq_eq_false_iff_ne] at hn
      exact ⟨fun he => hn.1 he.symm, hn.2⟩
    by_cases hm : UploadAppToRpi.is_excluded exclude (childPath lp m) m = true
    · rw [upload_entries_cons_excluded exclude lp rp m t rest res hm] at h
      exact upload_entries_preserves_other_names exclude lp rp n rest res res' acts
        hn'.2 h
    · rw [upload_entries_cons_eq exclude lp rp m t rest res
        (eq_false_of_ne_true hm)] at h
      cases hch : UploadAppToRpi.uploadChild exclude lp rp m t (res.lookup m) with
      | error e => rw [hch] at h; simp at h
      | ok v =>
        rcases v with ⟨node, acts1⟩
        rw [hch] at h
        dsimp only at h
        cases hrec : UploadAppToRpi.upload_entries exclude lp rp rest
            (res.setEntry m node) with
        | error e => rw [hrec] at h; simp at h
        | ok w =>
          rcases w with ⟨resEs, restActs⟩
          rw [hrec] at h
          simp only [Except.ok.injEq, Prod.mk.injEq] at h
          have hkeep := upload_entries_preserves_other_names exclude lp rp n rest
            (res.setEntry m node) resEs restActs hn'.2 hrec
          rw [← h.1, hkeep, lookup_setEntry_ne m n node hn'.1 res]

theorem upload_entries_idem (exclude : List String) :
    ∀ (ll : FsEntries) (lp rp : String) (res res' : FsEntries)
      (acts : List SyncAction),
      nodupNames ll = true →
      UploadAppToRpi.upload_entries exclude lp rp ll res = .ok (res', acts) →
      UploadAppToRpi.upload_entries exclude lp rp ll res' = .ok (res', [])
  | .nil, lp, rp, res, res', acts, _, h => by
    simp only [UploadAppToRpi.upload_entries, Except.ok.injEq, Prod.mk.injEq] at h
    rw [← h.1]
    rfl
  | .cons m t rest, lp, rp, res, res', acts, hnd, h => by
    by_cases hm : UploadAppToRpi.is_excluded exclude (childPath lp m) m = true
    · rw [upload_entries_cons_excluded exclude lp rp m t rest res hm] at h
      rw [upload_entries_cons_excluded exclude lp rp m t rest res' hm]
      exact upload_entries_idem exclude rest lp rp res res' acts
        (nodup_rest m t rest hnd) h
    · have hm' := eq_false_of_ne_true hm
      rw [upload_entries_cons_eq exclude lp rp m t rest res hm'] at h
      cases hch : UploadAppToRpi.uploadChild exclude lp rp m t (res.lookup m) with
      | error e => rw [hch] at h; simp at h
      | ok v =>
        rcases v with ⟨node, acts1⟩
        rw [hch] at h
        dsimp only at h
        cases hrec : UploadAppToRpi.upload_entries exclude lp rp rest
            (res.setEntry m node) with
        | error e => rw [hrec] at h; simp at h
        | ok w =>
          rcases w with ⟨resEs, restActs⟩
          rw [hrec] at h
          simp only [Except.ok.injEq, Prod.mk.injEq] at h
          -- the final listing still holds `node` at name `m`
          have hpres : res'.lookup m = some node := by
            rw [← h.1]
            rw [upload_entries_preserves_other_names exclude lp rp m rest
              (res.setEntry m node) resEs restActs (nodup_head m t rest hnd) hrec]
            exact lookup_setEntry_self m node res
          -- re-running the child step on `node` does nothing
          have hidem : UploadAppToRpi.uploadChild exclude lp rp m t (some node) =
              .ok (node, []) := by
            cases t with
            | file lm =>
              simp only [UploadAppToRpi.uploadChild] at hch ⊢
              exact upload_file_if_newer_idem (childPath rp m) lm (res.lookup m)
                node acts1 hch
            | dir dmt les =>
              simp only [UploadAppToRpi.uploadChild] at hch ⊢
              cases hlook : res.lookup m with
              | some u =>
                rw [hlook] at hch
                cases u with
                | file fm =>
                  by_cases hup : UploadAppToRpi.hasUploadableFile exclude
                      (childPath lp m) les = true
                  · simp [UploadAppToRpi.upload_dir, hup] at hch
                  · simp only [UploadAppToRpi.upload_dir, hup, Bool.false_eq_true,
                      if_false, Except.ok.injEq, Prod.mk.injEq] at hch
                    rw [← hch.1]
                    simp [UploadAppToRpi.upload_dir, hup]
                | dir dm es =>
                  simp only [UploadAppToRpi.upload_dir, Bind.bind, Except.bind] at hch
                  cases hsub : UploadAppToRpi.upload_entries exclude (childPath lp m)
                      (childPath rp m) les es with
                  | error e => rw [hsub] at hch; simp at hch
                  | ok v2 =>
                    rcases v2 with ⟨es2, a2⟩
                    rw [hsub] at hch
                    simp only [Pure.pure, Except.pure, Except.ok.injEq,
                      Prod.mk.injEq] at hch
                    have hsubidem := upload_entries_idem exclude les (childPath lp m)
                      (childPath rp m) es es2 a2 (nodup_dir m dmt les rest hnd) hsub
                    rw [← hch.1]
                    simp [UploadAppToRpi.upload_dir, Bind.bind, Except.bind, hsubidem,
                      Pure.pure, Except.pure]
              | none =>
                rw [hlook] at hch
                simp only [UploadAppToRpi.upload_dir, Bind.bind, Except.bind] at hch
                cases hsub : UploadAppToRpi.upload_entries exclude (childPath lp m)
                    (childPath rp m) les .nil with
                | error e => rw [hsub] at hch; simp at hch
                | ok v2 =>
                  rcases v2 with ⟨es2, a2⟩
                  rw [hsub] at hch
                  simp only [Pure.pure, Except.pure, Except.ok.injEq,
                    Prod.mk.injEq] at hch
                  have hsubidem := upload_entries_idem exclude les (childPath lp m)
                    (childPath rp m) .nil es2 a2 (nodup_dir m dmt les rest hnd) hsub
                  rw [← hch.1]
                  simp [UploadAppToRpi.upload_dir, Bind.bind, Except.bind, hsubidem,
                    Pure.pure, Except.pure]
          -- assemble the second run
          have hrest2 : UploadAppToRpi.upload_entries exclude lp rp rest res' =
              .ok (res', []) := by
            refine upload_entries_idem exclude rest lp rp (res.setEntry m node) res'
              restActs (nodup_rest m t rest hnd) ?_
            rw [hrec, h.1]
          rw [upload_entries_cons_eq exclude lp rp m t rest res' hm', hpres, hidem]
          dsimp only
          rw [setEntry_of_lookup m node res' hpres, hrest2]
          rfl

theorem entriesClean_nil (exclude : List String) (rp : String) (L : FsEntries) :
    entriesClean exclude rp L .nil = true := by
  simp [entriesClean]

theorem upload_entries_clean (exclude : List String) :
    ∀ (ll : FsEntries) (lp rp : String) (L res res' : FsEntries)
      (acts : List SyncAction),
      entriesClean exclude rp L res = true →
      entriesAgree L ll →
      nodupNames ll = true →
      UploadAppToRpi.upload_entries exclude lp rp ll res = .ok (res', acts) →
      entriesClean exclude rp L res' = true
  | .nil, lp, rp, L, res, res', acts, hcl, _, _, h => by
    simp only [UploadAppToRpi.upload_entries, Except.ok.injEq, Prod.mk.injEq] at h
    rw [← h.1]
    exact hcl
  | .cons m t rest, lp, rp, L, res, res', acts, hcl, hag, hnd, h => by
    obtain ⟨hagm, hagrest⟩ := hag
    by_cases hm : UploadAppToRpi.is_excluded exclude (childPath lp m) m = true
    · rw [upload_entries_cons_excluded exclude lp rp m t rest res hm] at h
      exact upload_entries_clean exclude rest lp rp L res res' acts hcl hagrest
        (nodup_rest m t rest hnd) h
    · rw [upload_entries_cons_eq exclude lp rp m t rest res
        (eq_false_of_ne_true hm)] at h
      cases hch : UploadAppToRpi.uploadChild exclude lp rp m t (res.lookup m) with
      | error e => rw [hch] at h; simp at h
      | ok v =>
        rcases v with ⟨node, acts1⟩
        rw [hch] at h
        dsimp only at h
        cases hrec : UploadAppToRpi.upload_entries exclude lp rp rest
            (res.setEntry m node) with
        | error e => rw [hrec] at h; simp at h
        | ok w =>
          rcases w with ⟨resEs, restActs⟩
          rw [hrec] at h
          simp only [Except.ok.injEq, Prod.mk.injEq] at h
          have hnode : entryClean exclude rp L m node = true := by
            cases t with
            | file lm =>
              simp only [UploadAppToRpi.uploadChild] at hch
              cases hlook : res.lookup m with
              | none =>
                rw [hlook] at hch
                simp only [UploadAppToRpi.upload_file_if_newer, Except.ok.injEq,
                  Prod.mk.injEq] at hch
                rw [← hch.1]
                simp [entryClean, hagm]
              | some u =>
                rw [hlook] at hch
                cases u with
                | file rm =>
                  by_cases hlt : lm > rm
                  · simp only [UploadAppToRpi.upload_file_if_newer, hlt, if_true,
                      Except.ok.injEq, Prod.mk.injEq] at hch
                    rw [← hch.1]
                    simp [entryClean, hagm]
                  · simp only [UploadAppToRpi.upload_file_if_newer, hlt, if_false,
                      Except.ok.injEq, Prod.mk.injEq] at hch
                    rw [← hch.1]
                    simp [entryClean, hagm]
                | dir dm es =>
                  by_cases hlt : lm > dm
                  · simp [UploadAppToRpi.upload_file_if_newer, hlt] at hch
                  · simp only [UploadAppToRpi.upload_file_if_newer, hlt, if_false,
                      Except.ok.injEq, Prod.mk.injEq] at hch
                    rw [← hch.1]
                    exact entriesClean_lookup exclude rp L res m (.dir dm es) hcl hlook
            | dir dmt les =>
              simp only [UploadAppToRpi.uploadChild] at hch
              cases hlook : res.lookup m with
              | some u =>
                rw [hlook] at hch
                cases u with
                | file fm =>
                  by_cases hup : UploadAppToRpi.hasUploadableFile exclude
                      (childPath lp m) les = true
                  · simp [UploadAppToRpi.upload_dir, hup] at hch
                  · simp only [UploadAppToRpi.upload_dir, hup, Bool.false_eq_true,
                      if_false, Except.ok.injEq, Prod.mk.injEq] at hch
                    rw [← hch.1]
                    simp [entryClean, hagm]
                | dir dm es =>
                  simp only [UploadAppToRpi.upload_dir, Bind.bind, Except.bind] at hch
                  cases hsub : UploadAppToRpi.upload_entries exclude (childPath lp m)
                      (childPath rp m) les es with
                  | error e => rw [hsub] at hch; simp at hch
                  | ok v2 =>
                    rcases v2 with ⟨es2, a2⟩
                    rw [hsub] at hch
                    simp only [Pure.pure, Except.pure, Except.ok.injEq,
                      Prod.mk.injEq] at hch
                    rw [← hch.1]
                    by_cases hex : UploadAppToRpi.is_excluded exclude
                        (childPath rp m) m = true
                    · simp [entryClean, hex]
                    · have hold := entriesClean_lookup exclude rp L res m
                        (.dir dm es) hcl hlook
                      simp only [entryClean, hex, Bool.false_or, hagm] at hold
                      have hcl2 := upload_entries_clean exclude les (childPath lp m)
                        (childPath rp m) les es es2 a2 hold
                        (entriesAgree_of_nodup les (nodup_dir m dmt les rest hnd))
                        (nodup_dir m dmt les rest hnd) hsub
                      simp [entryClean, hex, hagm, hcl2]
              | none =>
                rw [hlook] at hch
                simp only [UploadAppToRpi.upload_dir, Bind.bind, Except.bind] at hch
                cases hsub : UploadAppToRpi.upload_entries exclude (childPath lp m)
                    (childPath rp m) les .nil with
                | error e => rw [hsub] at hch; simp at hch
                | ok v2 =>
                  rcases v2 with ⟨es2, a2⟩
                  rw [hsub] at hch
                  simp only [Pure.pure, Except.pure, Except.ok.injEq,
                    Prod.mk.injEq] at hch
                  rw [← hch.1]
                  have hcl2 := upload_entries_clean exclude les (childPath lp m)
                    (childPath rp m) les .nil es2 a2
                    (entriesClean_nil exclude (childPath rp m) les)
                    (entriesAgree_of_nodup les (nodup_dir m dmt les rest hnd))
                    (nodup_dir m dmt les rest hnd) hsub
                  simp [entryClean, hagm, hcl2]
          have hclset := entriesClean_setEntry exclude rp L res m node hcl hnode
          rw [← h.1]
          exact upload_entries_clean exclude rest lp rp L (res.setEntry m node)
            resEs restActs hclset hagrest (nodup_rest m t rest hnd) hrec

/-- C4: syncing is idempotent — when a run of `upload_recursive` completes on
a well-formed local tree (distinct names at every level, as on a real
filesystem), running it again with the local tree unchanged performs zero
upload, create-directory and remove actions and leaves the remote tree as it
was. -/
theorem upload_recursive_idempotent (username project_directory : String)
    (exclude : List String) (lp : String) (localEs : FsEntries)
    (remoteRoot : Option FsTree) (R1 : FsTree) (acts : List SyncAction)
    (hnodup : nodupNames localEs = true)
    (h : UploadAppToRpi.upload_recursive username project_directory exclude lp
      localEs remoteRoot = .ok (R1, acts)) :
    UploadAppToRpi.upload_recursive username project_directory exclude lp localEs
      (some R1) = .ok (R1, []) := by
  have hag := entriesAgree_of_nodup localEs hnodup
  cases remoteRoot with
  | none =>
    simp only [UploadAppToRpi.upload_recursive] at h
    simp only [UploadAppToRpi.upload_dir, Bind.bind, Except.bind] at h
    cases hue : UploadAppToRpi.upload_entries exclude lp
        (childPath ("/home/" ++ username) project_directory) localEs .nil with
    | error e => rw [hue] at h; simp at h
    | ok v =>
      rcases v with ⟨es2, ua⟩
      rw [hue] at h
      simp only [Pure.pure, Except.pure, Except.ok.injEq, Prod.mk.injEq] at h
      have hcl2 := upload_entries_clean exclude localEs lp
        (childPath ("/home/" ++ username) project_directory) localEs .nil es2 ua
        (entriesClean_nil exclude
          (childPath ("/home/" ++ username) project_directory) localEs)
        hag hnodup hue
      have hidem := upload_entries_idem exclude localEs lp
        (childPath ("/home/" ++ username) project_directory) .nil es2 ua
        hnodup hue
      rw [← h.1]
      simp only [UploadAppToRpi.upload_recursive,
        entriesClean_delete exclude es2
          (childPath ("/home/" ++ username) project_directory) localEs hcl2,
        UploadAppToRpi.upload_dir, Bind.bind, Except.bind, hidem,
        Pure.pure, Except.pure, List.nil_append]
  | some u =>
    cases u with
    | file fm =>
      simp only [UploadAppToRpi.upload_recursive] at h
      by_cases hup : UploadAppToRpi.hasUploadableFile exclude lp localEs = true
      · simp [UploadAppToRpi.upload_dir, hup] at h
      · simp only [UploadAppToRpi.upload_dir, hup, Bool.false_eq_true, if_false,
          Except.ok.injEq, Prod.mk.injEq] at h
        rw [← h.1]
        simp [UploadAppToRpi.upload_recursive, UploadAppToRpi.upload_dir, hup]
    | dir dm es =>
      simp only [UploadAppToRpi.upload_recursive] at h
      rcases hdel : UploadAppToRpi.delete_extra_remote_files exclude
          (childPath ("/home/" ++ username) project_directory) localEs es
        with ⟨es1, dacts⟩
      rw [hdel] at h
      simp only [UploadAppToRpi.upload_dir, Bind.bind, Except.bind] at h
      cases hue : UploadAppToRpi.upload_entries exclude lp
          (childPath ("/home/" ++ username) project_directory) localEs es1 with
      | error e => rw [hue] at h; simp at h
      | ok v =>
        rcases v with ⟨es2, ua⟩
        rw [hue] at h
        simp only [Pure.pure, Except.pure, Except.ok.injEq, Prod.mk.injEq] at h
        have hcl1 := delete_output_clean exclude es
          (childPath ("/home/" ++ username) project_directory) localEs
        rw [hdel] at hcl1
        have hcl2 := upload_entries_clean exclude localEs lp
          (childPath ("/home/" ++ username) project_directory) localEs es1 es2 ua
          hcl1 hag hnodup hue
        have hidem := upload_entries_idem exclude localEs lp
          (childPath ("/home/" ++ username) project_directory) es1 es2 ua
          hnodup hue
        rw [← h.1]
        simp only [UploadAppToRpi.upload_recursive,
          entriesClean_delete exclude es2
            (childPath ("/home/" ++ username) project_directory) localEs hcl2,
          UploadAppToRpi.upload_dir, Bind.bind, Except.bind, hidem,
          Pure.pure, Except.pure, List.nil_append]

/-- Witness for C4 at the specification's concrete scenario: after the first
sync (which removes `a/old.txt` and uploads `a/b.txt`), an immediate second
sync performs no actions at all. -/
theorem upload_recursive_idempotent_witness :
    UploadAppToRpi.upload_recursive "pi" "proj" [] "/l"
        (.cons "a" (.dir 3 (.cons "b.txt" (.file 200) .nil)) .nil)
        (some (.dir 0 (.cons "a" (.dir 0 (.cons "b.txt" (.file 200) .nil)) .nil))) =
      .ok (.dir 0 (.cons "a" (.dir 0 (.cons "b.txt" (.file 200) .nil)) .nil), []) :=
  upload_recursive_idempotent "pi" "proj" [] "/l"
    (.cons "a" (.dir 3 (.cons "b.txt" (.file 200) .nil)) .nil)
    (some (.dir 0 (.cons "a"
      (.dir 0 (.cons "b.txt" (.file 100) (.cons "old.txt" (.file 50) .nil))) .nil)))
    (.dir 0 (.cons "a" (.dir 0 (.cons "b.txt" (.file 200) .nil)) .nil))
    [SyncAction.removeA "/home/pi/proj/a/old.txt",
      SyncAction.put "/home/pi/proj/a/b.txt"]
    (by rfl) (by rfl)
